import Mathlib

/-!
Shallow embedding of `tutorials/HiPEAC2019/omni.py` (class `omnidata`):
a dataset loader that reads a whitespace-delimited 7-column solar-wind
table, masks sentinel ("null") values, reshapes the rows into strided
sliding feature windows with a forecast-shifted target row, drops every
window that touches a sentinel, and offers an affine normalize /
denormalize pair.

Numeric file values are modelled as rationals, a file as a list of rows
(each row a list of the 7 field values), and the pandas/numpy operations
as explicit list manipulations.  The numpy crash on `all(axis=1)` over an
empty 1-dimensional array is modelled by an `Option` result of `load`.
-/

namespace Omni

/-- Column names of the 7-field schema (`headers` in the source). -/
def headers : List String := ["year", "day", "hour", "Bz", "Np", "V", "Dst"]

/-- Sentinel ("null") value of each column (`nulls` in the source), `none`
for the three columns that have no sentinel.  The decimal `999.9` is the
exact rational `9999/10`, written with `mkRat` so that the kernel can
evaluate comparisons against it. -/
def nulls : List (Option ℚ) :=
  [none, none, none, some (mkRat 9999 10), some (mkRat 9999 10), some 9999, some 999]

/-- Position of a column name in the schema (`data.columns.get_loc(c)`). -/
def colIdx (c : String) : ℕ := headers.indexOf c

/-- Sentinel of a named column (`nulls[data.columns.get_loc(c)]`). -/
def sentinel (c : String) : Option ℚ := nulls.getD (colIdx c) none

/-- One entry of the validity mask
(`data[cols].values != [nulls[i] for i in cnulls]`): a numpy elementwise
comparison of a float with `None` (a column without sentinel) is `True`. -/
def maskEntry (c : String) (v : ℚ) : Bool :=
  match sentinel c with
  | none => true
  | some s => decide (v ≠ s)

/-- A raw file: the list of its rows, each a list of the 7 field values. -/
abbrev Table := List (List ℚ)

/-- Row slice performed by `pd.read_table(..., skiprows=rowbeg, nrows=nrows)`:
drop the first `rowbeg` rows, then keep at most `nrows` rows (`none` reads
everything that is left). -/
def readRows (t : Table) (rowbeg : ℕ) (nrows : Option ℕ) : Table :=
  match nrows with
  | none => t.drop rowbeg
  | some n => (t.drop rowbeg).take n

/-- Column selection `data[cols]`: every row restricted to the named
columns, in the order of `cols` (not the file's native order). -/
def selectCols (t : Table) (cols : List String) : Table :=
  t.map (fun r => cols.map (fun c => r.getD (colIdx c) 0))

/-- The validity mask built by `read`: one boolean per (row, selected
column), true iff the raw value differs from that column's sentinel. -/
def maskCols (t : Table) (cols : List String) : List (List Bool) :=
  t.map (fun r => cols.map (fun c => maskEntry c (r.getD (colIdx c) 0)))

/-- Operation `omnidata.read`: the `cols`-restricted sub-table of the
requested row range together with its parallel validity mask. -/
def read (t : Table) (rowbeg : ℕ) (nrows : Option ℕ) (cols : List String) :
    Table × List (List Bool) :=
  (selectCols (readRows t rowbeg nrows) cols,
   maskCols (readRows t rowbeg nrows) cols)

/-- Python strided slice `l[a:b:d]` with a positive step `d` (the pandas
`iloc[a:b:d]` and numpy `[a:b:d]` slicing of the source): the elements at
indices `a, a+d, a+2d, ...` strictly below `min b (length of l)`. -/
def pySlice {α : Type} [Inhabited α] (l : List α) (a b d : ℕ) : List α :=
  (List.range ((min b l.length - a + (d - 1)) / d)).map
    (fun k => l.getD (a + k * d) default)

/-- Constructor configuration of `omnidata`: the sample spacing `dt`, the
window length `nt` and the forecast horizon `fcast`. -/
structure Config where
  dt : ℕ
  nt : ℕ
  fcast : ℕ
  deriving DecidableEq

/-- Offset `tau = dt*nt + fcast` from a window start to its target row. -/
def tauOf (cfg : Config) : ℕ := cfg.dt * cfg.nt + cfg.fcast

/-- Body of `omnidata.load` acting on the rows `u` already cut out by the
two identical `read` calls (both read the same `(rowbeg, nrows)` range).
Mirrors the source line by line; the result is `none` exactly when the
source raises: for `m ≤ 0` the list comprehension over `range(m)` is
empty, so `Xmask` is a 1-dimensional empty numpy array and
`Xmask.all(axis=1)` raises an `AxisError`. -/
def loadTable (cfg : Config) (u : Table) (xcols ycols : List String) :
    Option (Table × Table) :=
  let T0 := cfg.dt * cfg.nt
  let tau := T0 + cfg.fcast
  let xraw := selectCols u xcols
  let xmask := maskCols u xcols
  let yraw := selectCols u ycols
  let ymask := maskCols u ycols
  let m := xraw.length - tau
  let Y0 := yraw.drop tau
  let X0 := (List.range m).map (fun i => (pySlice xraw i (i + T0) cfg.dt).flatten)
  let Ymask0 := ymask.drop tau
  let Xmask0 := (List.range m).map (fun i => (pySlice xmask i (i + T0) cfg.dt).flatten)
  let keep : ℕ → Bool := fun i => (Xmask0.getD i []).all id && (Ymask0.getD i []).all id
  let m2 := Y0.length
  if m = 0 then none
  else
    some (((List.range m2).filter keep).map (fun i => X0.getD i []),
          ((List.range m2).filter keep).map (fun i => Y0.getD i []))

/-- Operation `omnidata.load`: read the requested row range (the source
reads the same range once for `xcols` and once for `ycols`) and build the
feature matrix `X` and the target matrix `Y`. -/
def load (cfg : Config) (t : Table) (xcols ycols : List String)
    (rowbeg : ℕ) (nrows : Option ℕ) : Option (Table × Table) :=
  loadTable cfg (readRows t rowbeg nrows) xcols ycols

/-- Feature window at candidate start `i`: rows `i, i+dt, ..., i+(nt-1)dt`
of the selected x-table, flattened into one vector. -/
def windowOf (cfg : Config) (xs : Table) (i : ℕ) : List ℚ :=
  ((List.range cfg.nt).map (fun k => xs.getD (i + k * cfg.dt) [])).flatten

/-- Validity of candidate window `i`: every mask entry of the `nt` strided
window rows and every mask entry of the target row is true. -/
def validAt (cfg : Config) (u : Table) (xcols ycols : List String) (i : ℕ) : Bool :=
  ((List.range cfg.nt).all
      (fun k => ((maskCols u xcols).getD (i + k * cfg.dt) []).all id))
    && ((maskCols u ycols).getD (i + tauOf cfg) []).all id

/-- Start indices of the kept candidate windows, in their original order. -/
def keptIdx (cfg : Config) (u : Table) (xcols ycols : List String) : List ℕ :=
  (List.range (u.length - tauOf cfg)).filter (validAt cfg u xcols ycols)

/-- Statement of the spec's validity condition on the raw values: none of
the `nt` strided window rows carries a sentinel in an x-column, and the
target row carries no sentinel in a y-column. -/
def sentinelFree (cfg : Config) (u : Table) (xcols ycols : List String) (i : ℕ) : Prop :=
  (∀ k < cfg.nt, ∀ c ∈ xcols, ∀ s, sentinel c = some s →
      (u.getD (i + k * cfg.dt) []).getD (colIdx c) 0 ≠ s) ∧
  (∀ c ∈ ycols, ∀ s, sentinel c = some s →
      (u.getD (i + tauOf cfg) []).getD (colIdx c) 0 ≠ s)

instance (cfg : Config) (u : Table) (xcols ycols : List String) (i : ℕ) :
    Decidable (sentinelFree cfg u xcols ycols i) := by
  unfold sentinelFree; infer_instance

/-- Maximum of a list of rationals, `0` on the empty list (columnwise
`x.max(axis=0)` acts on nonempty columns). -/
def listMax (l : List ℚ) : ℚ := l.maximum.unbot' 0

/-- Minimum of a list of rationals, `0` on the empty list. -/
def listMin (l : List ℚ) : ℚ := l.minimum.untop' 0

/-- Arithmetic mean of a list of rationals (`x.mean(axis=0)` columnwise). -/
def listMean (l : List ℚ) : ℚ := l.sum / l.length

/-- Columnwise reduction of a 2-dimensional array: the vector whose entry
`j` reduces column `j` (the width is that of the first row, as for a
rectangular numpy array). -/
def colParam (f : List ℚ → ℚ) (x : Table) : List ℚ :=
  (List.range (x.headD []).length).map (fun j => f (x.map (fun r => r.getD j 0)))

/-- Operation `omnidata.normalize`: each of `Max`, `Min`, `Mean` is taken
as supplied, or computed columnwise from `x` when absent; the result is
`(x - mean) / (max - min)` rowwise together with the three parameters
used.  The `rank` parameter is accepted and never read, as in the source. -/
def normalize (rank : ℕ) (x : Table) (Max Min Mean : Option (List ℚ)) :
    Table × List ℚ × List ℚ × List ℚ :=
  let x_max := match Max with | none => colParam listMax x | some v => v
  let x_min := match Min with | none => colParam listMin x | some v => v
  let x_mean := match Mean with | none => colParam listMean x | some v => v
  let x_norm := x.map (fun r => (List.range r.length).map
    (fun j => (r.getD j 0 - x_mean.getD j 0) / (x_max.getD j 0 - x_min.getD j 0)))
  (x_norm, x_max, x_min, x_mean)

/-- Operation `omnidata.denorm`: `x_norm * (xmax - xmin) + xmean` rowwise. -/
def denorm (x_norm : Table) (xmax xmin xmean : List ℚ) : Table :=
  x_norm.map (fun r => (List.range r.length).map
    (fun j => r.getD j 0 * (xmax.getD j 0 - xmin.getD j 0) + xmean.getD j 0))

/-- Concrete sentinel-free 4-row file used to instantiate the general
theorems. -/
def demoTable : Table :=
  [[2000, 1, 0, 1, 5, 400, -10],
   [2000, 1, 1, 15, 5, 400, -20],
   [2000, 1, 2, 2, 5, 400, -30],
   [2000, 1, 3, 3, 5, 400, -40]]

/-- The 4-row file of the spec's concrete scenario: row 1 carries the `Bz`
sentinel `999.9`. -/
def specTable : Table :=
  [[2000, 1, 0, 1, 5, 400, -10],
   [2000, 1, 1, mkRat 9999 10, 5, 400, -10],
   [2000, 1, 2, 2, 5, 400, -10],
   [2000, 1, 3, 3, 5, 400, -10]]

/-- A 1-row file: fewer rows than `tau` for the default configuration. -/
def shortTable : Table := [[2000, 1, 0, 1, 5, 400, -10]]

/-- A 3-row file whose first row carries the `Bz` sentinel, so the first
candidate window is dropped and the output indices shift. -/
def gapTable : Table :=
  [[2000, 1, 0, mkRat 9999 10, 5, 400, -10],
   [2000, 1, 1, 2, 5, 400, -10],
   [2000, 1, 2, 3, 5, 400, -10]]

/-- Sentinel table rewritten with the decimal literals of the source file. -/
theorem nulls_decimal :
    nulls = [none, none, none, some (999.9 : ℚ), some (999.9 : ℚ), some 9999, some 999] := by
  norm_num [nulls, Rat.mkRat_eq_div]

theorem default_list {β : Type} : (default : List β) = [] := rfl

theorem length_selectCols (t : Table) (cols : List String) :
    (selectCols t cols).length = t.length := List.length_map ..

theorem length_maskCols (t : Table) (cols : List String) :
    (maskCols t cols).length = t.length := List.length_map ..

theorem getD_selectCols (t : Table) (cols : List String) {i : ℕ} (h : i < t.length) :
    (selectCols t cols).getD i []
      = cols.map (fun c => (t.getD i []).getD (colIdx c) 0) := by
  simp only [selectCols, List.getD_eq_getElem?_getD, List.getElem?_map,
    List.getElem?_eq_getElem h]
  rfl

theorem getD_maskCols (t : Table) (cols : List String) {i : ℕ} (h : i < t.length) :
    (maskCols t cols).getD i []
      = cols.map (fun c => maskEntry c ((t.getD i []).getD (colIdx c) 0)) := by
  simp only [maskCols, List.getD_eq_getElem?_getD, List.getElem?_map,
    List.getElem?_eq_getElem h]
  rfl

theorem getD_map_range {β : Type} (f : ℕ → β) (d : β) {i m : ℕ} (h : i < m) :
    ((List.range m).map f).getD i d = f i := by
  rw [List.getD_eq_getElem?_getD, List.getElem?_map, List.getElem?_range h]
  rfl

theorem getD_drop {β : Type} (l : List β) (k i : ℕ) (d : β) :
    (l.drop k).getD i d = l.getD (k + i) d := by
  rw [List.getD_eq_getElem?_getD, List.getD_eq_getElem?_getD, List.getElem?_drop]

theorem pySlice_strided {α : Type} [Inhabited α] (l : List α) (a d n : ℕ)
    (hd : 1 ≤ d) (h : a + d * n ≤ l.length) :
    pySlice l a (a + d * n) d
      = (List.range n).map (fun k => l.getD (a + k * d) default) := by
  unfold pySlice
  rw [min_eq_left h, Nat.add_sub_cancel_left, Nat.add_comm (d * n) (d - 1),
    Nat.add_mul_div_left _ _ (by omega : 0 < d), Nat.div_eq_of_lt (by omega),
    Nat.zero_add]

theorem flatten_all {α : Type} (L : List (List α)) (p : α → Bool) :
    L.flatten.all p = L.all (fun l => l.all p) := by
  induction L with
  | nil => rfl
  | cons hd tl ih => simp [List.flatten_cons, List.all_append, ih]

theorem all_comp_map {α β : Type} (l : List α) (f : α → β) (p : β → Bool) :
    (l.map f).all p = l.all (fun x => p (f x)) := by
  induction l with
  | nil => rfl
  | cons hd tl ih => simp [ih]

/-- Characterization of `loadTable` on the non-degenerate case `m ≥ 1`:
the kept start indices are those whose window and target mask entries are
all true, the feature rows are the strided flattened windows and the
target rows are the `tau`-shifted y-rows, both in kept order. -/
theorem loadTable_eq (cfg : Config) (u : Table) (xcols ycols : List String)
    (hdt : 1 ≤ cfg.dt) (hm : tauOf cfg < u.length) :
    loadTable cfg u xcols ycols = some
      ((keptIdx cfg u xcols ycols).map (fun i => windowOf cfg (selectCols u xcols) i),
       (keptIdx cfg u xcols ycols).map
         (fun i => (selectCols u ycols).getD (i + tauOf cfg) [])) := by
  unfold tauOf at hm
  have hcond : ¬((selectCols u xcols).length - (cfg.dt * cfg.nt + cfg.fcast) = 0) := by
    rw [length_selectCols]; omega
  have hkeep : ∀ i ∈ List.range ((selectCols u xcols).length - (cfg.dt * cfg.nt + cfg.fcast)),
      (((((List.range ((selectCols u xcols).length - (cfg.dt * cfg.nt + cfg.fcast))).map
            (fun i => (pySlice (maskCols u xcols) i (i + cfg.dt * cfg.nt) cfg.dt).flatten)).getD
          i []).all id)
        && ((((maskCols u ycols).drop (cfg.dt * cfg.nt + cfg.fcast)).getD i []).all id))
      = validAt cfg u xcols ycols i := by
    intro i hi
    rw [List.mem_range] at hi
    have hiu : i < u.length - (cfg.dt * cfg.nt + cfg.fcast) := by
      rwa [length_selectCols] at hi
    rw [getD_map_range _ _ hi,
      pySlice_strided _ _ _ cfg.nt hdt (by rw [length_maskCols]; omega),
      flatten_all, all_comp_map, getD_drop, Nat.add_comm (cfg.dt * cfg.nt + cfg.fcast) i]
    unfold validAt tauOf
    simp [default_list]
  simp only [loadTable]
  rw [if_neg hcond]
  have hlen : ((selectCols u ycols).drop (cfg.dt * cfg.nt + cfg.fcast)).length
      = (selectCols u xcols).length - (cfg.dt * cfg.nt + cfg.fcast) := by
    rw [List.length_drop, length_selectCols, length_selectCols]
  rw [hlen, List.filter_congr hkeep]
  unfold keptIdx tauOf
  rw [length_selectCols]
  congr 1
  congr 1
  · apply List.map_congr_left
    intro i hi
    have hi2 : i < u.length - (cfg.dt * cfg.nt + cfg.fcast) := by
      have := (List.mem_filter.mp hi).1
      rwa [List.mem_range] at this
    rw [getD_map_range _ _ hi2,
      pySlice_strided _ _ _ cfg.nt hdt (by rw [length_selectCols]; omega)]
    unfold windowOf
    simp [default_list]
  · apply List.map_congr_left
    intro i hi
    rw [getD_drop, Nat.add_comm (cfg.dt * cfg.nt + cfg.fcast) i]

/-- Degenerate case: when the rows read do not exceed `tau`, the modelled
`load` fails (the source raises a numpy `AxisError`). -/
theorem loadTable_none (cfg : Config) (u : Table) (xcols ycols : List String)
    (h : u.length ≤ tauOf cfg) : loadTable cfg u xcols ycols = none := by
  have hc : (selectCols u xcols).length - (cfg.dt * cfg.nt + cfg.fcast) = 0 := by
    rw [length_selectCols]; unfold tauOf at h; omega
  simp only [loadTable]
  rw [if_pos hc]

theorem maskEntry_eq_true (c : String) (v : ℚ) :
    maskEntry c v = true ↔ ∀ s, sentinel c = some s → v ≠ s := by
  unfold maskEntry
  cases h : sentinel c with
  | none => simp
  | some s => simp

theorem idx_bound {dt nt k : ℕ} (hdt : 1 ≤ dt) (hk : k < nt) : k * dt < dt * nt := by
  have h1 : (k + 1) * dt ≤ nt * dt := Nat.mul_le_mul_right dt hk
  rw [Nat.succ_mul] at h1
  rw [Nat.mul_comm dt nt]
  omega

/-- A candidate window is valid exactly when none of the raw values it
uses equals its column's sentinel. -/
theorem validAt_iff (cfg : Config) (u : Table) (xcols ycols : List String)
    (i : ℕ) (hdt : 1 ≤ cfg.dt) (hi : i + tauOf cfg < u.length) :
    validAt cfg u xcols ycols i = true ↔ sentinelFree cfg u xcols ycols i := by
  have hrow : ∀ k, k < cfg.nt → i + k * cfg.dt < u.length := by
    intro k hk
    have := idx_bound hdt hk
    unfold tauOf at hi
    omega
  unfold validAt sentinelFree
  rw [Bool.and_eq_true, List.all_eq_true]
  constructor
  · rintro ⟨hx, hy⟩
    refine ⟨fun k hk c hc s hs => ?_, fun c hc s hs => ?_⟩
    · have h1 := hx k (List.mem_range.mpr hk)
      rw [getD_maskCols u xcols (hrow k hk), List.all_eq_true] at h1
      exact (maskEntry_eq_true _ _).mp (List.forall_mem_map.mp h1 c hc) s hs
    · rw [getD_maskCols u ycols hi, List.all_eq_true] at hy
      exact (maskEntry_eq_true _ _).mp (List.forall_mem_map.mp hy c hc) s hs
  · rintro ⟨hx, hy⟩
    constructor
    · intro k hk
      rw [List.mem_range] at hk
      rw [getD_maskCols u xcols (hrow k hk), List.all_eq_true]
      exact List.forall_mem_map.mpr
        (fun c hc => (maskEntry_eq_true _ _).mpr (hx k hk c hc))
    · rw [getD_maskCols u ycols hi, List.all_eq_true]
      exact List.forall_mem_map.mpr
        (fun c hc => (maskEntry_eq_true _ _).mpr (hy c hc))

theorem mem_keptIdx {cfg : Config} {u : Table} {xcols ycols : List String} {i : ℕ} :
    i ∈ keptIdx cfg u xcols ycols
      ↔ i < u.length - tauOf cfg ∧ validAt cfg u xcols ycols i = true := by
  unfold keptIdx
  rw [List.mem_filter, List.mem_range]

theorem getD_map_of_lt {α β : Type} (l : List α) (f : α → β) (d : β) (d0 : α)
    {j : ℕ} (hj : j < l.length) :
    (l.map f).getD j d = f (l.getD j d0) := by
  rw [List.getD_eq_getElem?_getD, List.getElem?_map, List.getElem?_eq_getElem hj,
    List.getD_eq_getElem l d0 hj]
  rfl

theorem length_getD_selectCols (t : Table) (cols : List String) {i : ℕ}
    (h : i < t.length) :
    ((selectCols t cols).getD i []).length = cols.length := by
  rw [getD_selectCols t cols h, List.length_map]

theorem length_getD_maskCols (t : Table) (cols : List String) {i : ℕ}
    (h : i < t.length) :
    ((maskCols t cols).getD i []).length = cols.length := by
  rw [getD_maskCols t cols h, List.length_map]

theorem windowOf_length (cfg : Config) (u : Table) (xcols : List String) (i : ℕ)
    (hdt : 1 ≤ cfg.dt) (h : i + cfg.dt * cfg.nt ≤ u.length) :
    (windowOf cfg (selectCols u xcols) i).length = cfg.nt * xcols.length := by
  unfold windowOf
  rw [List.length_flatten, List.map_map]
  have hc : ∀ k ∈ List.range cfg.nt,
      (List.length ∘ fun k => (selectCols u xcols).getD (i + k * cfg.dt) []) k
        = xcols.length := by
    intro k hk
    rw [List.mem_range] at hk
    have := idx_bound hdt hk
    exact length_getD_selectCols u xcols (by omega)
  rw [List.map_congr_left hc, List.map_const', List.sum_replicate, List.length_range,
    smul_eq_mul]

theorem denorm_normalize_entry (x : Table) (mx mn me : List ℚ) (i j : ℕ)
    (hi : i < x.length) (hj : j < (x.getD i []).length)
    (hne : mx.getD j 0 ≠ mn.getD j 0) :
    ((denorm (x.map (fun r => (List.range r.length).map
          (fun j => (r.getD j 0 - me.getD j 0) / (mx.getD j 0 - mn.getD j 0))))
        mx mn me).getD i []).getD j 0 = (x.getD i []).getD j 0 := by
  unfold denorm
  rw [List.map_map]
  rw [getD_map_of_lt _ _ [] [] hi]
  simp only [Function.comp_apply, List.length_map, List.length_range]
  rw [getD_map_range _ _ hj, getD_map_range _ _ hj]
  rw [div_mul_cancel₀ _ (sub_ne_zero_of_ne hne), sub_add_cancel]

/-- C1: for every configuration with `dt ≥ 1`, `nt ≥ 1` and every row range
holding more rows than `tau = dt*nt + fcast`, `load` builds every kept
feature row as the flattened x-table rows `i, i+dt, ..., i+(nt-1)dt`
(a vector of length `nt * |xcols|`), every kept target row as y-table row
`i + tau` (length `|ycols|`), and row `j` of the two stacked outputs comes
from the same kept start index. -/
theorem C1_window_target_construction (cfg : Config) (t : Table)
    (xcols ycols : List String) (rowbeg : ℕ) (nrows : Option ℕ)
    (hdt : 1 ≤ cfg.dt) (hnt : 1 ≤ cfg.nt)
    (hm : tauOf cfg < (readRows t rowbeg nrows).length) :
    ∃ X Y, load cfg t xcols ycols rowbeg nrows = some (X, Y) ∧
      X.length = (keptIdx cfg (readRows t rowbeg nrows) xcols ycols).length ∧
      Y.length = (keptIdx cfg (readRows t rowbeg nrows) xcols ycols).length ∧
      ∀ j < (keptIdx cfg (readRows t rowbeg nrows) xcols ycols).length,
        X.getD j [] = windowOf cfg (selectCols (readRows t rowbeg nrows) xcols)
            ((keptIdx cfg (readRows t rowbeg nrows) xcols ycols).getD j 0) ∧
        (X.getD j []).length = cfg.nt * xcols.length ∧
        Y.getD j [] = (selectCols (readRows t rowbeg nrows) ycols).getD
            ((keptIdx cfg (readRows t rowbeg nrows) xcols ycols).getD j 0 + tauOf cfg) [] ∧
        (Y.getD j []).length = ycols.length := by
  set u := readRows t rowbeg nrows
  refine ⟨_, _, loadTable_eq cfg u xcols ycols hdt hm,
    List.length_map .., List.length_map .., ?_⟩
  intro j hj
  have hmem : (keptIdx cfg u xcols ycols).getD j 0 ∈ keptIdx cfg u xcols ycols := by
    rw [List.getD_eq_getElem _ _ hj]
    exact List.getElem_mem hj
  have hi : (keptIdx cfg u xcols ycols).getD j 0 < u.length - tauOf cfg :=
    (mem_keptIdx.mp hmem).1
  have htau : tauOf cfg < u.length := hm
  refine ⟨getD_map_of_lt _ _ [] 0 hj, ?_, getD_map_of_lt _ _ [] 0 hj, ?_⟩
  · rw [getD_map_of_lt _ _ [] 0 hj]
    apply windowOf_length cfg u xcols _ hdt
    unfold tauOf at hi
    omega
  · rw [getD_map_of_lt _ _ [] 0 hj]
    exact length_getD_selectCols u ycols (by omega)

theorem C1_witness :
    ∃ X Y, load ⟨1, 2, 0⟩ demoTable ["Bz"] ["Dst"] 0 none = some (X, Y) ∧
      X.length = (keptIdx ⟨1, 2, 0⟩ (readRows demoTable 0 none) ["Bz"] ["Dst"]).length ∧
      Y.length = (keptIdx ⟨1, 2, 0⟩ (readRows demoTable 0 none) ["Bz"] ["Dst"]).length ∧
      ∀ j < (keptIdx ⟨1, 2, 0⟩ (readRows demoTable 0 none) ["Bz"] ["Dst"]).length,
        X.getD j [] = windowOf ⟨1, 2, 0⟩ (selectCols (readRows demoTable 0 none) ["Bz"])
            ((keptIdx ⟨1, 2, 0⟩ (readRows demoTable 0 none) ["Bz"] ["Dst"]).getD j 0) ∧
        (X.getD j []).length = (⟨1, 2, 0⟩ : Config).nt * (["Bz"] : List String).length ∧
        Y.getD j [] = (selectCols (readRows demoTable 0 none) ["Dst"]).getD
            ((keptIdx ⟨1, 2, 0⟩ (readRows demoTable 0 none) ["Bz"] ["Dst"]).getD j 0
              + tauOf ⟨1, 2, 0⟩) [] ∧
        (Y.getD j []).length = (["Dst"] : List String).length :=
  C1_window_target_construction ⟨1, 2, 0⟩ demoTable ["Bz"] ["Dst"] 0 none
    (by decide) (by decide) (by decide)

/-- C2: a candidate pair is in `load`'s output exactly when none of the
values it uses (the `nt` strided window rows over `xcols` and the target
row over `ycols`) equals its column's sentinel, and the output consists of
exactly the windows and targets of the kept start indices. -/
theorem C2_inclusion_iff_no_sentinel (cfg : Config) (t : Table)
    (xcols ycols : List String) (rowbeg : ℕ) (nrows : Option ℕ)
    (hdt : 1 ≤ cfg.dt)
    (hm : tauOf cfg < (readRows t rowbeg nrows).length) :
    load cfg t xcols ycols rowbeg nrows = some
      ((keptIdx cfg (readRows t rowbeg nrows) xcols ycols).map
         (fun i => windowOf cfg (selectCols (readRows t rowbeg nrows) xcols) i),
       (keptIdx cfg (readRows t rowbeg nrows) xcols ycols).map
         (fun i => (selectCols (readRows t rowbeg nrows) ycols).getD (i + tauOf cfg) [])) ∧
    ∀ i < (readRows t rowbeg nrows).length - tauOf cfg,
      (i ∈ keptIdx cfg (readRows t rowbeg nrows) xcols ycols
        ↔ sentinelFree cfg (readRows t rowbeg nrows) xcols ycols i) := by
  set u := readRows t rowbeg nrows
  refine ⟨loadTable_eq cfg u xcols ycols hdt hm, fun i hi => ?_⟩
  rw [mem_keptIdx, validAt_iff cfg u xcols ycols i hdt (by omega)]
  exact ⟨fun h => h.2, fun h => ⟨hi, h⟩⟩

theorem C2_witness :
    (0 ∈ keptIdx ⟨1, 2, 0⟩ (readRows specTable 0 none) ["Bz"] ["Dst"]
      ↔ sentinelFree ⟨1, 2, 0⟩ (readRows specTable 0 none) ["Bz"] ["Dst"] 0) :=
  (C2_inclusion_iff_no_sentinel ⟨1, 2, 0⟩ specTable ["Bz"] ["Dst"] 0 none
    (by decide) (by decide)).2 0 (by decide)

/-- C3: `load` returns arrays of equal length bounded by `R - tau`, with
equality when no sentinel appears in the rows read over the selected
columns. -/
theorem C3_length_invariant (cfg : Config) (t : Table) (xcols ycols : List String)
    (rowbeg : ℕ) (nrows : Option ℕ) (hdt : 1 ≤ cfg.dt)
    (hm : tauOf cfg < (readRows t rowbeg nrows).length) :
    ∃ X Y, load cfg t xcols ycols rowbeg nrows = some (X, Y) ∧
      X.length = Y.length ∧
      X.length ≤ (readRows t rowbeg nrows).length - tauOf cfg ∧
      ((∀ r ∈ readRows t rowbeg nrows, ∀ c, (c ∈ xcols ∨ c ∈ ycols) →
          ∀ s, sentinel c = some s → r.getD (colIdx c) 0 ≠ s) →
        X.length = (readRows t rowbeg nrows).length - tauOf cfg) := by
  set u := readRows t rowbeg nrows
  have hrowmem : ∀ idx, idx < u.length → u.getD idx [] ∈ u := by
    intro idx h
    rw [List.getD_eq_getElem _ _ h]
    exact List.getElem_mem h
  refine ⟨_, _, loadTable_eq cfg u xcols ycols hdt hm, ?_, ?_, ?_⟩
  · rw [List.length_map, List.length_map]
  · rw [List.length_map]
    unfold keptIdx
    calc (List.filter (validAt cfg u xcols ycols)
            (List.range (u.length - tauOf cfg))).length
        ≤ (List.range (u.length - tauOf cfg)).length := List.length_filter_le _ _
      _ = u.length - tauOf cfg := List.length_range _
  · intro hclean
    rw [List.length_map]
    unfold keptIdx
    have hall : ∀ i ∈ List.range (u.length - tauOf cfg),
        validAt cfg u xcols ycols i = true := by
      intro i hi
      rw [List.mem_range] at hi
      rw [validAt_iff cfg u xcols ycols i hdt (by omega)]
      constructor
      · intro k hk c hc s hs
        have hb : i + k * cfg.dt < u.length := by
          have := idx_bound hdt hk
          unfold tauOf at hi
          omega
        exact hclean _ (hrowmem _ hb) c (Or.inl hc) s hs
      · intro c hc s hs
        exact hclean _ (hrowmem _ (by omega)) c (Or.inr hc) s hs
    rw [List.filter_eq_self.mpr hall, List.length_range]

theorem C3_witness :
    ∃ X Y, load ⟨1, 2, 0⟩ demoTable ["Bz"] ["Dst"] 0 none = some (X, Y) ∧
      X.length = Y.length ∧
      X.length ≤ (readRows demoTable 0 none).length - tauOf ⟨1, 2, 0⟩ ∧
      ((∀ r ∈ readRows demoTable 0 none, ∀ c, (c ∈ (["Bz"] : List String) ∨ c ∈ (["Dst"] : List String)) →
          ∀ s, sentinel c = some s → r.getD (colIdx c) 0 ≠ s) →
        X.length = (readRows demoTable 0 none).length - tauOf ⟨1, 2, 0⟩) :=
  C3_length_invariant ⟨1, 2, 0⟩ demoTable ["Bz"] ["Dst"] 0 none (by decide) (by decide)

/-- C4: the claim says a row range shorter than `tau` yields two empty
arrays without error; on such an input the source instead raises a numpy
`AxisError` (`Xmask` is an empty 1-dimensional array, so
`Xmask.all(axis=1)` is out of bounds), modelled here as `none`. -/
theorem C4_short_range_fails :
    load ⟨1, 5, 1⟩ shortTable ["Bz"] ["Dst"] 0 none = none := by decide

/-- C5 is refuted as stated: when an earlier candidate window is dropped,
output pair `0` corresponds to the window starting at raw offset `1`, not
offset `0`. -/
theorem C5_pair_offset_counterexample :
    ∃ X Y, load ⟨1, 1, 0⟩ gapTable ["Bz"] ["Dst"] 0 none = some (X, Y) ∧
      1 ≤ X.length ∧
      X.getD 0 [] ≠ windowOf ⟨1, 1, 0⟩ (selectCols (readRows gapTable 0 none) ["Bz"]) 0 ∧
      X.getD 0 [] = windowOf ⟨1, 1, 0⟩ (selectCols (readRows gapTable 0 none) ["Bz"]) 1 :=
  ⟨[[2]], [[-10]], by decide, by decide, by decide, by decide⟩

/-- C5 (amended): output rows are never reordered — the kept start offsets
are strictly increasing and output pair `j` corresponds to the `j`-th kept
start offset (which equals `j` only when every earlier candidate is kept). -/
theorem C5_order_preserved (cfg : Config) (t : Table) (xcols ycols : List String)
    (rowbeg : ℕ) (nrows : Option ℕ) (hdt : 1 ≤ cfg.dt)
    (hm : tauOf cfg < (readRows t rowbeg nrows).length) :
    List.Pairwise (· < ·) (keptIdx cfg (readRows t rowbeg nrows) xcols ycols) ∧
    load cfg t xcols ycols rowbeg nrows = some
      ((keptIdx cfg (readRows t rowbeg nrows) xcols ycols).map
         (fun i => windowOf cfg (selectCols (readRows t rowbeg nrows) xcols) i),
       (keptIdx cfg (readRows t rowbeg nrows) xcols ycols).map
         (fun i => (selectCols (readRows t rowbeg nrows) ycols).getD (i + tauOf cfg) [])) := by
  refine ⟨?_, loadTable_eq cfg _ xcols ycols hdt hm⟩
  unfold keptIdx
  exact List.Pairwise.sublist (List.filter_sublist _) (List.pairwise_lt_range _)

theorem C5_witness :
    List.Pairwise (· < ·) (keptIdx ⟨1, 1, 0⟩ (readRows gapTable 0 none) ["Bz"] ["Dst"]) :=
  (C5_order_preserved ⟨1, 1, 0⟩ gapTable ["Bz"] ["Dst"] 0 none (by decide) (by decide)).1

/-- C6: `read_range` returns a table and mask of identical row count whose
rows both have `|cols|` entries ordered as the caller-supplied `cols`
(entry `j` comes from column `cols[j]` of the raw row); each mask entry is
true iff the raw value differs from that column's sentinel
(`Bz = Np = 999.9`, `V = 9999`, `Dst = 999`), and entries of the
sentinel-free columns `year`, `day`, `hour` are always true. -/
theorem C6_read_range (t : Table) (rowbeg : ℕ) (nrows : Option ℕ)
    (cols : List String) :
    (read t rowbeg nrows cols).1.length = (read t rowbeg nrows cols).2.length ∧
    (∀ i < (read t rowbeg nrows cols).1.length,
      ((read t rowbeg nrows cols).1.getD i []).length = cols.length ∧
      ((read t rowbeg nrows cols).2.getD i []).length = cols.length ∧
      ∀ j < cols.length,
        ((read t rowbeg nrows cols).1.getD i []).getD j 0
          = ((readRows t rowbeg nrows).getD i []).getD (colIdx (cols.getD j "")) 0 ∧
        (((read t rowbeg nrows cols).2.getD i []).getD j false = true ↔
          ∀ s, sentinel (cols.getD j "") = some s →
            ((readRows t rowbeg nrows).getD i []).getD (colIdx (cols.getD j "")) 0 ≠ s) ∧
        ((cols.getD j "" = "year" ∨ cols.getD j "" = "day" ∨ cols.getD j "" = "hour") →
          ((read t rowbeg nrows cols).2.getD i []).getD j false = true)) ∧
    (sentinel "Bz" = some (999.9 : ℚ) ∧ sentinel "Np" = some (999.9 : ℚ) ∧
     sentinel "V" = some 9999 ∧ sentinel "Dst" = some 999 ∧
     sentinel "year" = none ∧ sentinel "day" = none ∧ sentinel "hour" = none) := by
  simp only [read]
  set u := readRows t rowbeg nrows
  have hbz : sentinel "Bz" = some (mkRat 9999 10) := by decide
  have hnp : sentinel "Np" = some (mkRat 9999 10) := by decide
  refine ⟨by rw [length_selectCols, length_maskCols], ?_,
    by rw [hbz]; norm_num [Rat.mkRat_eq_div], by rw [hnp]; norm_num [Rat.mkRat_eq_div],
    by decide, by decide, by decide, by decide, by decide⟩
  intro i hi
  have hiu : i < u.length := by rwa [length_selectCols] at hi
  refine ⟨length_getD_selectCols u cols hiu, length_getD_maskCols u cols hiu, ?_⟩
  intro j hj
  refine ⟨?_, ?_, ?_⟩
  · rw [getD_selectCols u cols hiu, getD_map_of_lt _ _ 0 "" hj]
  · rw [getD_maskCols u cols hiu, getD_map_of_lt _ _ false "" hj]
    exact maskEntry_eq_true _ _
  · intro hcase
    rw [getD_maskCols u cols hiu, getD_map_of_lt _ _ false "" hj,
      maskEntry_eq_true]
    rcases hcase with h | h | h <;> rw [h] <;> exact fun s hs => Option.noConfusion hs

theorem C6_witness :
    ((read demoTable 0 none ["Dst", "Bz"]).2.getD 0 []).getD 1 false = true :=
  ((((C6_read_range demoTable 0 none ["Dst", "Bz"]).2.1 0
    (by decide)).2.2 1 (by decide)).2.1).mpr (by decide)

/-- C7: `denorm` inverts `normalize` elementwise on every column where the
max and min parameters actually used differ, also when those parameters
were computed from the input itself. -/
theorem C7_denorm_inverse (rank : ℕ) (x : Table) (Max Min Mean : Option (List ℚ))
    (i j : ℕ) (hi : i < x.length) (hj : j < (x.getD i []).length)
    (hne : (normalize rank x Max Min Mean).2.1.getD j 0
         ≠ (normalize rank x Max Min Mean).2.2.1.getD j 0) :
    ((denorm (normalize rank x Max Min Mean).1
        (normalize rank x Max Min Mean).2.1
        (normalize rank x Max Min Mean).2.2.1
        (normalize rank x Max Min Mean).2.2.2).getD i []).getD j 0
      = (x.getD i []).getD j 0 := by
  simp only [normalize] at hne ⊢
  exact denorm_normalize_entry x _ _ _ i j hi hj hne

theorem C7_witness :
    ((denorm (normalize 0 [[(1 : ℚ), 3], [2, 4]] none none none).1
        (normalize 0 [[(1 : ℚ), 3], [2, 4]] none none none).2.1
        (normalize 0 [[(1 : ℚ), 3], [2, 4]] none none none).2.2.1
        (normalize 0 [[(1 : ℚ), 3], [2, 4]] none none none).2.2.2).getD 0 []).getD 0 0
      = (([[(1 : ℚ), 3], [2, 4]] : Table).getD 0 []).getD 0 0 :=
  C7_denorm_inverse 0 [[(1 : ℚ), 3], [2, 4]] none none none 0 0
    (by decide) (by decide) (by decide)

/-- C8: `normalize` uses every supplied parameter as given, computes every
omitted parameter from the input itself — columnwise maximum (an attained
upper bound), columnwise minimum (an attained lower bound), columnwise
mean (column sum over row count) — and scales every entry to
`(x - mean) / (max - min)` with the parameters actually used. -/
theorem C8_normalize_params (rank : ℕ) (x : Table) (Max Min Mean : Option (List ℚ)) :
    (∀ v, Max = some v → (normalize rank x Max Min Mean).2.1 = v) ∧
    (∀ v, Min = some v → (normalize rank x Max Min Mean).2.2.1 = v) ∧
    (∀ v, Mean = some v → (normalize rank x Max Min Mean).2.2.2 = v) ∧
    (Max = none → x ≠ [] → ∀ j < (x.headD []).length,
      (∃ r ∈ x, (normalize rank x Max Min Mean).2.1.getD j 0 = r.getD j 0) ∧
      (∀ r ∈ x, r.getD j 0 ≤ (normalize rank x Max Min Mean).2.1.getD j 0)) ∧
    (Min = none → x ≠ [] → ∀ j < (x.headD []).length,
      (∃ r ∈ x, (normalize rank x Max Min Mean).2.2.1.getD j 0 = r.getD j 0) ∧
      (∀ r ∈ x, (normalize rank x Max Min Mean).2.2.1.getD j 0 ≤ r.getD j 0)) ∧
    (Mean = none → ∀ j < (x.headD []).length,
      (normalize rank x Max Min Mean).2.2.2.getD j 0
        = (x.map (fun r => r.getD j 0)).sum / x.length) ∧
    (∀ i < x.length, ∀ j < (x.getD i []).length,
      ((normalize rank x Max Min Mean).1.getD i []).getD j 0
        = ((x.getD i []).getD j 0 - (normalize rank x Max Min Mean).2.2.2.getD j 0)
          / ((normalize rank x Max Min Mean).2.1.getD j 0
             - (normalize rank x Max Min Mean).2.2.1.getD j 0)) := by
  refine ⟨fun v hv => by simp [normalize, hv], fun v hv => by simp [normalize, hv],
    fun v hv => by simp [normalize, hv], ?_, ?_, ?_, ?_⟩
  · intro hv hx j hj
    simp only [normalize, hv, colParam]
    rw [getD_map_range _ _ hj]
    have hcol : x.map (fun r => r.getD j 0) ≠ [] := by
      intro h
      exact hx (List.map_eq_nil_iff.mp h)
    cases hq : (x.map (fun r => r.getD j 0)).maximum with
    | bot => exact absurd (List.maximum_eq_bot.mp hq) hcol
    | coe mm =>
      have hch := List.maximum_eq_coe_iff.mp hq
      unfold listMax
      rw [hq, WithBot.unbot'_coe]
      constructor
      · obtain ⟨r, hr, hfr⟩ := List.mem_map.mp hch.1
        exact ⟨r, hr, hfr.symm⟩
      · intro r hr
        exact hch.2 _ (List.mem_map_of_mem _ hr)
  · intro hv hx j hj
    simp only [normalize, hv, colParam]
    rw [getD_map_range _ _ hj]
    have hcol : x.map (fun r => r.getD j 0) ≠ [] := by
      intro h
      exact hx (List.map_eq_nil_iff.mp h)
    cases hq : (x.map (fun r => r.getD j 0)).minimum with
    | top => exact absurd (List.minimum_eq_top.mp hq) hcol
    | coe mm =>
      have hch := List.minimum_eq_coe_iff.mp hq
      unfold listMin
      rw [hq, WithTop.untop'_coe]
      constructor
      · obtain ⟨r, hr, hfr⟩ := List.mem_map.mp hch.1
        exact ⟨r, hr, hfr.symm⟩
      · intro r hr
        exact hch.2 _ (List.mem_map_of_mem _ hr)
  · intro hv j hj
    simp only [normalize, hv, colParam]
    rw [getD_map_range _ _ hj]
    unfold listMean
    rw [List.length_map]
  · intro i hi j hj
    simp only [normalize]
    rw [getD_map_of_lt _ _ [] [] hi, getD_map_range _ _ hj]

theorem C8_witness :
    ((normalize 0 [[(1 : ℚ), 3], [2, 4]] none none none).1.getD 0 []).getD 0 0
      = ((([[(1 : ℚ), 3], [2, 4]] : Table).getD 0 []).getD 0 0
          - (normalize 0 [[(1 : ℚ), 3], [2, 4]] none none none).2.2.2.getD 0 0)
        / ((normalize 0 [[(1 : ℚ), 3], [2, 4]] none none none).2.1.getD 0 0
           - (normalize 0 [[(1 : ℚ), 3], [2, 4]] none none none).2.2.1.getD 0 0) :=
  (C8_normalize_params 0 [[(1 : ℚ), 3], [2, 4]] none none none).2.2.2.2.2.2
    0 (by decide) 0 (by decide)

/-- C9: on the spec's concrete 4-row file with `dt=1`, `nt=2`, `fcast=0`,
`xcols=[Bz]`, `ycols=[Dst]`, both candidate windows contain the `Bz`
sentinel of row 1 and are excluded, start index 2 is not a candidate
(`m = 2`), and `load` returns two empty arrays. -/
theorem C9_concrete_scenario :
    specTable.getD 1 [] = [2000, 1, 1, (999.9 : ℚ), 5, 400, -10] ∧
    load ⟨1, 2, 0⟩ specTable ["Bz"] ["Dst"] 0 none = some ([], []) ∧
    validAt ⟨1, 2, 0⟩ (readRows specTable 0 none) ["Bz"] ["Dst"] 0 = false ∧
    validAt ⟨1, 2, 0⟩ (readRows specTable 0 none) ["Bz"] ["Dst"] 1 = false ∧
    (readRows specTable 0 none).length - tauOf ⟨1, 2, 0⟩ = 2 :=
  ⟨by norm_num [specTable, Rat.mkRat_eq_div], by decide, by decide, by decide, by decide⟩

/-- C10: the result of `normalize` does not depend on its first positional
parameter `rank`, which the implementation accepts but never reads. -/
theorem C10_rank_independent (r1 r2 : ℕ) (x : Table)
    (Max Min Mean : Option (List ℚ)) :
    normalize r1 x Max Min Mean = normalize r2 x Max Min Mean := rfl

end Omni
